import Mathlib

/-!
Verification development for the version-graph store, patch codec and
collaboration hub of the corporate policy editor repository.

The embedding follows `src/services/settingsService.js`, which holds three
modules: `SettingsService` (out of scope here), `VersionService` (the Version
Graph Store) and `CollaborationService` (the Collaboration Hub).  JavaScript
`Map`s are modelled as insertion-ordered association lists, so that
`Map.set` on an existing key rewrites the value in place (preserving key
order) and appends otherwise, exactly as the iteration order of a JS `Map`
behaves.  Fresh `uuidv4` identifiers are modelled by a per-document counter
`nextId`; timestamps are irrelevant to every claim and carried as plain
naturals.  Operations that would make the JavaScript throw (or dereference
`undefined`) return `none`.
-/

namespace PolicyEditor

/-- Association-list lookup, first match wins; models `Map.get`. -/
def alookup {α β : Type} [DecidableEq α] : List (α × β) → α → Option β
  | [], _ => none
  | (k, v) :: rest, key => if key = k then some v else alookup rest key

/-- Association-list write; models `Map.set`: an existing key keeps its
position in insertion order, a new key is appended at the end. -/
def aset {α β : Type} [DecidableEq α] : List (α × β) → α → β → List (α × β)
  | [], key, val => [(key, val)]
  | (k, v) :: rest, key, val =>
      if key = k then (k, val) :: rest else (k, v) :: aset rest key val

/-- Association-list removal of the (single) entry for a key; models
`Map.delete`. -/
def aerase {α β : Type} [DecidableEq α] : List (α × β) → α → List (α × β)
  | [], _ => []
  | (k, v) :: rest, key => if key = k then rest else (k, v) :: aerase rest key

theorem alookup_aset {α β : Type} [DecidableEq α]
    (l : List (α × β)) (k : α) (v : β) (k' : α) :
    alookup (aset l k v) k' = if k' = k then some v else alookup l k' := by
  induction l with
  | nil =>
    by_cases h : k' = k <;> simp [aset, alookup, h]
  | cons hd tl ih =>
    obtain ⟨k₀, v₀⟩ := hd
    by_cases hk : k = k₀
    · subst hk
      by_cases h : k' = k <;> simp [aset, alookup, h]
    · by_cases h : k' = k₀
      · subst h
        simp [aset, alookup, hk, Ne.symm hk]
      · simp [aset, alookup, hk, h, ih]

theorem alookup_aerase {α β : Type} [DecidableEq α]
    (l : List (α × β)) (k k' : α) (hne : k' ≠ k)
    (hnodup : (l.map Prod.fst).Nodup) :
    alookup (aerase l k) k' = alookup l k' := by
  induction l with
  | nil => simp [aerase]
  | cons hd tl ih =>
    obtain ⟨k₀, v₀⟩ := hd
    simp only [List.map_cons, List.nodup_cons] at hnodup
    by_cases hk : k = k₀
    · subst hk
      simp [aerase, alookup, hne]
    · by_cases h : k' = k₀
      · simp [aerase, alookup, hk, h]
      · simp [aerase, alookup, hk, h, ih hnodup.2]

theorem aset_head_key {α β : Type} [DecidableEq α]
    (l : List (α × β)) (k : α) (v : β) (hne : l ≠ []) :
    ((aset l k v).head?).map Prod.fst = (l.head?).map Prod.fst := by
  cases l with
  | nil => exact absurd rfl hne
  | cons hd tl =>
    obtain ⟨k₀, v₀⟩ := hd
    by_cases h : k = k₀ <;> simp [aset, h]

/-! ### Patch Codec

Modelled from the spec: the Patch Codec (spec §4.1) is provided by the
external `diff-match-patch` dependency, whose implementation is not part of
the repository's files; the repository only calls `patch_make`,
`patch_apply`, `diff_main` and `patch_fromText`.  Per the contract, `diff`
produces an edit script, `apply` is total — a patch whose recorded context
fails to match is skipped (not an error) and reported per-patch via the list
of applied flags — and serialization round-trips exactly, so wire messages
carry a `PatchSet` directly.  A patch is modelled as a context-checked
replacement: it applies (in sequence) exactly when the current text equals
its recorded context. -/

structure Patch where
  expect : String
  replace : String
deriving DecidableEq, Repr, Inhabited

abbrev PatchSet := List Patch

/-- Modelled from the spec: `diff(a, b)`, the edit script turning `a` into
`b` (spec §4.1); empty when the two strings already agree. -/
def patch_make (a b : String) : PatchSet :=
  if a = b then [] else [{ expect := a, replace := b }]

/-- Modelled from the spec: total `apply(base, patches)`; every patch is
attempted in sequence, a patch whose context does not match is skipped, and
the per-patch outcome is reported in the returned flag list (spec §4.1). -/
def patch_apply : PatchSet → String → String × List Bool
  | [], base => (base, [])
  | p :: rest, base =>
      let step := if base = p.expect then (p.replace, true) else (base, false)
      let tail := patch_apply rest step.1
      (tail.1, step.2 :: tail.2)

theorem patch_apply_length (ps : PatchSet) (base : String) :
    (patch_apply ps base).2.length = ps.length := by
  induction ps generalizing base with
  | nil => simp [patch_apply]
  | cons p rest ih => simp [patch_apply, ih]

/-- Round-trip of the codec: the diff of `a` against `b`, applied back onto
`a`, reproduces `b` with every patch applying cleanly. -/
theorem patch_roundtrip (a b : String) :
    patch_apply (patch_make a b) a = (b, List.replicate (patch_make a b).length true) := by
  by_cases h : a = b
  · subst h; simp [patch_make, patch_apply]
  · simp [patch_make, patch_apply, h]

/-! ### Version Graph Store (`VersionService`)

The JavaScript class keys its `versions`, `branches` and `tags` maps by
`documentId`, and every operation touches a single document's entry, so the
embedding carries one document's graph: its version map, its branch map and
the freshness counter standing in for `uuidv4`. -/

/-- A version node as built by `VersionService`: the source object carries a
single `parent` field (`null` for the root) plus a `children` array, a
content hash and a `metadata.type` discriminator. -/
structure VNode where
  id : Nat
  content : String
  hash : String
  parent : Option Nat
  children : List Nat
  mtype : String
deriving DecidableEq, Repr, Inhabited

/-- Modelled from the spec: `generateHash` is the SHA-256 hex digest of the
content (the `crypto` dependency is not in the repository's files); the
digest is injective on the inputs considered, which is the only property any
development below could rely on — in fact none of the claims touch hashes. -/
def generateHash (content : String) : String := content

/-- One document's slice of the `VersionService` state. -/
structure DocGraph where
  versions : List (Nat × VNode)
  branches : List (String × Nat)
  nextId : Nat
deriving DecidableEq, Repr, Inhabited

/-- The parent list of a node: the source's single `parent` field viewed as
zero or one parents, which is everything the graph walks dereference. -/
def parents (v : VNode) : List Nat := v.parent.toList

/-- Source `initializeDocument` restricted to the fresh document: one root
node with no parent, and a branch map holding only `"main"`. -/
def initializeDocument (initialContent : String) : DocGraph × VNode :=
  let v : VNode :=
    { id := 0, content := initialContent, hash := generateHash initialContent,
      parent := none, children := [], mtype := "initial" }
  ({ versions := [(0, v)], branches := [("main", 0)], nextId := 1 }, v)

/-- Source `getCurrentBranchName`: the first key of the document's branch
map (`Array.from(branches.keys())[0]`). -/
def getCurrentBranchName (g : DocGraph) : Option String :=
  (g.branches.head?).map Prod.fst

/-- Source `getCurrentBranch`: the version id the first branch points at. -/
def getCurrentBranch (g : DocGraph) : Option Nat :=
  match getCurrentBranchName g with
  | none => none
  | some name => alookup g.branches name

/-- Source `createVersion`: parent is the current branch's tip; the parent's
children gain the new id, and the current branch pointer advances.  `none`
models the JavaScript throwing (`Document not found`) or dereferencing an
`undefined` parent. -/
def createVersion (g : DocGraph) (content : String) : Option (DocGraph × VNode) :=
  match getCurrentBranchName g with
  | none => none
  | some branchName =>
    match alookup g.branches branchName with
    | none => none
    | some parentId =>
      match alookup g.versions parentId with
      | none => none
      | some parentVersion =>
        let v : VNode :=
          { id := g.nextId, content := content, hash := generateHash content,
            parent := some parentVersion.id, children := [], mtype := "normal" }
        let versions' :=
          aset (aset g.versions parentId
                  { parentVersion with children := parentVersion.children ++ [v.id] })
               v.id v
        some ({ versions := versions',
                branches := aset g.branches branchName v.id,
                nextId := g.nextId + 1 }, v)

/-- Source `createBranch`: refuses an existing name or an unknown starting
version, otherwise records the new pointer. -/
def createBranch (g : DocGraph) (branchName : String) (startingVersionId : Nat) :
    Option DocGraph :=
  if (alookup g.branches branchName).isSome then none
  else if (alookup g.versions startingVersionId).isNone then none
  else some { g with branches := aset g.branches branchName startingVersionId }

/-- Source `switchBranch`: looks the branch up and returns its version id.
The source mutates nothing — it only emits a `branch-switched` notification —
which the embedding reflects by not producing a state. -/
def switchBranch (g : DocGraph) (branchName : String) : Option Nat :=
  alookup g.branches branchName

/-- The ids visited by the first `while` loop of `findCommonAncestor`: the
walk from a node along `parent` links, ending when `versions.get` yields
nothing (the root's `null` parent included).  The fuel bounds the walk; on
the acyclic graphs of the claims a fuel of `versions.length + 1` never runs
out, while on a cyclic graph the source loop would not terminate. -/
def ancestorChain (versions : List (Nat × VNode)) : Nat → Option VNode → List Nat
  | 0, _ => []
  | _, none => []
  | fuel + 1, some v =>
      v.id :: ancestorChain versions fuel (v.parent.bind (alookup versions))

/-- The second `while` loop of `findCommonAncestor`: walk from a node along
`parent` links until an id in the first walk's visited set is met. -/
def findFromChain (versions : List (Nat × VNode)) (chain : List Nat) :
    Nat → Option VNode → Option VNode
  | 0, _ => none
  | _, none => none
  | fuel + 1, some v =>
      if v.id ∈ chain then some v
      else findFromChain versions chain fuel (v.parent.bind (alookup versions))

/-- Source `findCommonAncestor`: collect the first node's ancestor ids, then
walk the second node's chain until a collected id is found. -/
def findCommonAncestor (versions : List (Nat × VNode)) (v1 v2 : VNode) :
    Option VNode :=
  findFromChain versions (ancestorChain versions (versions.length + 1) (some v1))
    (versions.length + 1) (some v2)

/-- A conflict entry as pushed by `autoMerge`: the failing patch's index in
the target diff together with the patch itself (`targetDiff[index]`). -/
structure Conflict where
  index : Nat
  patch : Patch
deriving DecidableEq, Repr

/-- The `results.forEach((applied, index) => ...)` loop of `autoMerge`,
threading the running index. -/
def collectConflictsFrom (targetDiff : PatchSet) : Nat → List Bool → List Conflict
  | _, [] => []
  | i, applied :: rest =>
      if applied then collectConflictsFrom targetDiff (i + 1) rest
      else { index := i, patch := targetDiff.getD i default } ::
           collectConflictsFrom targetDiff (i + 1) rest

/-- Source `autoMerge`: apply the source diff to the base (its applied flags
are discarded — the destructuring keeps only the text), apply the target
diff to that intermediate result, and record a conflict for every target
patch that failed to apply. -/
def autoMerge (baseContent : String) (sourceDiff targetDiff : PatchSet) :
    String × List Conflict :=
  let sourceResult := (patch_apply sourceDiff baseContent).1
  let applied := patch_apply targetDiff sourceResult
  (applied.1, collectConflictsFrom targetDiff 0 applied.2)

/-- The `children.push` mutation of a node already stored in the version
map, as `mergeBranches` performs on both tips; a missing id leaves the map
unchanged (unreachable after the lookups guarding the call sites). -/
def pushChild (versions : List (Nat × VNode)) (parentId childId : Nat) :
    List (Nat × VNode) :=
  match alookup versions parentId with
  | none => versions
  | some v => aset versions parentId { v with children := v.children ++ [childId] }

/-- Source `mergeBranches`: look both branch tips up, find their common
ancestor, diff both tips against it, merge per the resolution mode, then
record the merge node (its `parent` field is the target tip), push the new
id onto both tips' `children`, and advance the target branch pointer. -/
def mergeBranches (g : DocGraph) (sourceBranch targetBranch resolution : String) :
    Option (DocGraph × VNode × List Conflict) :=
  match alookup g.branches sourceBranch with
  | none => none
  | some sourceTipId =>
    match alookup g.branches targetBranch with
    | none => none
    | some targetTipId =>
      match alookup g.versions sourceTipId with
      | none => none
      | some sourceVersion =>
        match alookup g.versions targetTipId with
        | none => none
        | some targetVersion =>
          match findCommonAncestor g.versions sourceVersion targetVersion with
          | none => none
          | some ancestor =>
            let sourceDiff := patch_make ancestor.content sourceVersion.content
            let targetDiff := patch_make ancestor.content targetVersion.content
            let merged :=
              if resolution = "auto" then
                autoMerge ancestor.content sourceDiff targetDiff
              else
                (if resolution = "source" then sourceVersion.content
                 else targetVersion.content, [])
            let mergeVersion : VNode :=
              { id := g.nextId, content := merged.1, hash := generateHash merged.1,
                parent := some targetVersion.id, children := [], mtype := "merge" }
            let vs0 := aset g.versions mergeVersion.id mergeVersion
            let vs1 := pushChild vs0 targetTipId mergeVersion.id
            let vs2 := pushChild vs1 sourceTipId mergeVersion.id
            some ({ versions := vs2,
                    branches := aset g.branches targetBranch mergeVersion.id,
                    nextId := g.nextId + 1 }, mergeVersion, merged.2)

/-- Source `getDiff` at the codec interface: diff the two stored contents.
The source feeds them to the external library's `diff_main` and semantic
cleanup; spec §4.1 types the result as a `PatchSet`. -/
def getDiff (g : DocGraph) (fromVersionId toVersionId : Nat) : Option PatchSet :=
  match alookup g.versions fromVersionId with
  | none => none
  | some fromVersion =>
    match alookup g.versions toVersionId with
    | none => none
    | some toVersion => some (patch_make fromVersion.content toVersion.content)

/-- Source `restore`: a new node carrying the historical content and hash,
parented to the current branch tip, and the current branch pointer advances.
The source does not touch the parent's `children` array.  A document whose
branch map is empty is refused (the JavaScript would file the node under a
`null` branch key; no reachable document state has an empty branch map). -/
def restore (g : DocGraph) (versionId : Nat) : Option (DocGraph × VNode) :=
  match alookup g.versions versionId with
  | none => none
  | some version =>
    match getCurrentBranchName g with
    | none => none
    | some currentBranch =>
      match alookup g.branches currentBranch with
      | none => none
      | some tip =>
        let restoredVersion : VNode :=
          { id := g.nextId, content := version.content, hash := version.hash,
            parent := some tip, children := [], mtype := "restore" }
        some ({ versions := aset g.versions restoredVersion.id restoredVersion,
                branches := aset g.branches currentBranch restoredVersion.id,
                nextId := g.nextId + 1 }, restoredVersion)

/-- The `while (currentId)` loop of `getHistory`, fuel-bounded: `none` for a
walk that dereferences a missing id (the source would crash) or exhausts the
fuel (the source would keep looping). -/
def historyWalk (versions : List (Nat × VNode)) : Nat → Option Nat → Option (List VNode)
  | _, none => some []
  | 0, some _ => none
  | fuel + 1, some id =>
    match alookup versions id with
    | none => none
    | some v => (historyWalk versions fuel v.parent).map (v :: ·)

/-- Source `getHistory`: resolve the requested (or current) branch to a tip
and walk first-parent links; a missing named branch yields the empty list,
as does an absent current branch. -/
def getHistory (g : DocGraph) (branchName : Option String) : Option (List VNode) :=
  match branchName with
  | some name =>
    match alookup g.branches name with
    | none => some []
    | some tip => historyWalk g.versions g.versions.length (some tip)
  | none => historyWalk g.versions g.versions.length (getCurrentBranch g)

/-- Well-formedness of a tip for the history walk: the first-parent chain
from it reaches a root (a `null` parent) within the given number of steps,
every id on the way being present in the version map.  An acyclic chain
through the map visits distinct nodes, so `versions.length` steps always
suffice on the graphs the claim quantifies over. -/
def rootedBy (versions : List (Nat × VNode)) : Nat → Option Nat → Bool
  | _, none => true
  | 0, some _ => false
  | fuel + 1, some id =>
    match alookup versions id with
    | none => false
    | some v => rootedBy versions fuel v.parent

/-- The version map is keyed by node id (`versions.set(version.id, version)`
throughout the source). -/
def keyedVersions (versions : List (Nat × VNode)) : Bool :=
  versions.all fun e => e.2.id = e.1

/-- A list of nodes is first-parent linked when each node's `parent` names
the next node's id. -/
def linked : List VNode → Bool
  | [] => true
  | [_] => true
  | a :: b :: rest => decide (a.parent = some b.id) && linked (b :: rest)

/-- The last node of the list, if any, has no parent. -/
def endsAtRoot : List VNode → Bool
  | [] => true
  | [v] => decide (v.parent = none)
  | _ :: b :: rest => endsAtRoot (b :: rest)

/-! ### Collaboration Hub (`CollaborationService`)

Sessions are keyed by `documentId`; the `clients` map sends a WebSocket
handle (modelled as a `Nat`) to the connection's generated client id, and
`cursors` is service-wide (keyed by client id), unlike `selections` and
`locks` which live in the session.  The `locks` map is created lazily by
`lockSection` in the source; the empty list models its absence (every
operation treats the two alike).  Comment payloads are opaque to every
claim and carried as strings.  Outbound traffic is returned as a list of
`(wsHandle, message)` sends. -/

abbrev ClientId := String

/-- A section lock as stored by `lockSection`. -/
structure Lock where
  clientId : ClientId
  timestamp : Nat
deriving DecidableEq, Repr

/-- One document's live session (`this.documents.get(documentId)`). -/
structure Session where
  clients : List ClientId
  content : String
  version : Nat
  comments : List String
  selections : List (ClientId × (Nat × Nat))
  locks : List (String × Lock)
deriving DecidableEq, Repr

/-- The wire messages the claimed operations emit. -/
inductive Msg where
  | syncRequired (currentVersion : Option Nat)
  | change (changes : PatchSet) (version : Nat) (clientId : Option ClientId)
  | userLeft (clientId : ClientId)
  | sectionLocked (sectionId : String) (clientId : ClientId)
  | sectionUnlocked (sectionId : String)
deriving DecidableEq, Repr

/-- The `CollaborationService` state the claims touch. -/
structure Hub where
  documents : List (String × Session)
  clients : List (Nat × ClientId)
  cursors : List (ClientId × Nat)
deriving DecidableEq, Repr

/-- Source `broadcast`: send the message over every connection whose client
is a member of the document's session and not among the excluded ids. -/
def broadcast (hub : Hub) (documentId : String) (message : Msg)
    (excludeIds : List ClientId) : List (Nat × Msg) :=
  match alookup hub.documents documentId with
  | none => []
  | some doc =>
      hub.clients.filterMap fun e =>
        if e.2 ∈ doc.clients ∧ e.2 ∉ excludeIds then some (e.1, message) else none

/-- Source `handleChange`: a missing session or a base version different
from the session's counter is answered with `sync-required` carrying the
current counter (or nothing when the session is absent) and mutates nothing;
a matching base version applies the patch set to the session content,
increments the counter, and broadcasts the change with the new version to
the document's other clients, the submitter excluded.  The submitted
`changes` arrive as a serialized patch set in the source
(`patch_fromText`); serialization round-trips exactly (spec §4.1), so the
message carries the `PatchSet` itself. -/
def handleChange (hub : Hub) (ws : Nat) (documentId : String)
    (changes : PatchSet) (version : Nat) : Hub × List (Nat × Msg) :=
  let clientId := alookup hub.clients ws
  match alookup hub.documents documentId with
  | none => (hub, [(ws, Msg.syncRequired none)])
  | some doc =>
    if doc.version ≠ version then
      (hub, [(ws, Msg.syncRequired (some doc.version))])
    else
      let newContent := (patch_apply changes doc.content).1
      let doc' := { doc with content := newContent, version := doc.version + 1 }
      let hub' := { hub with documents := aset hub.documents documentId doc' }
      (hub', broadcast hub' documentId
        (Msg.change changes doc'.version clientId) clientId.toList)

/-- The `for (const [documentId, doc] of this.documents.entries())` loop of
`handleClientDisconnect`: each session holding the client drops it from its
member set and selections, then a `user-left` notice goes to the session's
remaining clients (`this.clients` already lacks the closed socket). -/
def disconnectDocsLoop (clientsMap : List (Nat × ClientId)) (c : ClientId) :
    List (String × Session) → List (String × Session) × List (Nat × Msg)
  | [] => ([], [])
  | (documentId, doc) :: rest =>
    if c ∈ doc.clients then
      let doc' := { doc with clients := doc.clients.erase c,
                             selections := aerase doc.selections c }
      let msgs := clientsMap.filterMap fun e =>
        if e.2 ∈ doc'.clients then some (e.1, Msg.userLeft c) else none
      let tail := disconnectDocsLoop clientsMap c rest
      ((documentId, doc') :: tail.1, msgs ++ tail.2)
    else
      let tail := disconnectDocsLoop clientsMap c rest
      ((documentId, doc) :: tail.1, tail.2)

/-- Source `handleClientDisconnect`: drop the socket from the client map and
the client's cursor, then run the per-document cleanup loop.  An unknown
socket (no client id) touches no document — no session contains the
undefined id. -/
def handleClientDisconnect (hub : Hub) (ws : Nat) : Hub × List (Nat × Msg) :=
  match alookup hub.clients ws with
  | none => ({ hub with clients := aerase hub.clients ws }, [])
  | some c =>
      let clients' := aerase hub.clients ws
      let cursors' := aerase hub.cursors c
      let looped := disconnectDocsLoop clients' c hub.documents
      ({ documents := looped.1, clients := clients', cursors := cursors' }, looped.2)

/-- Source `lockSection`: fails on a missing session or an already-locked
section, otherwise records the lock and broadcasts `section-locked` to the
whole session (no exclusions).  The `now` argument stands for `Date.now()`. -/
def lockSection (hub : Hub) (documentId sectionId : String) (clientId : ClientId)
    (now : Nat) : (Hub × List (Nat × Msg)) × Bool :=
  match alookup hub.documents documentId with
  | none => ((hub, []), false)
  | some doc =>
    if (alookup doc.locks sectionId).isSome then ((hub, []), false)
    else
      let doc' := { doc with
        locks := aset doc.locks sectionId { clientId := clientId, timestamp := now } }
      let hub' := { hub with documents := aset hub.documents documentId doc' }
      ((hub', broadcast hub' documentId (Msg.sectionLocked sectionId clientId) []), true)

/-- Source `unlockSection`: fails on a missing session, a missing lock, or a
caller other than the recorded holder, otherwise removes the lock and
broadcasts `section-unlocked`. -/
def unlockSection (hub : Hub) (documentId sectionId : String) (clientId : ClientId) :
    (Hub × List (Nat × Msg)) × Bool :=
  match alookup hub.documents documentId with
  | none => ((hub, []), false)
  | some doc =>
    match alookup doc.locks sectionId with
    | none => ((hub, []), false)
    | some lock =>
      if lock.clientId ≠ clientId then ((hub, []), false)
      else
        let doc' := { doc with locks := aerase doc.locks sectionId }
        let hub' := { hub with documents := aset hub.documents documentId doc' }
        ((hub', broadcast hub' documentId (Msg.sectionUnlocked sectionId) []), true)

/-! ### Concrete states used by the scenario theorems and witnesses -/

/-- Document graph of the branching scenario: root `0` with content
`"Hello"`, a `"feature"` branch created at the root, and one commit
(node `1`, `"Hello World"`) on `"main"`. -/
def gScenario : DocGraph :=
  let g0 := (initializeDocument "Hello").1
  let g1 := (createBranch g0 "feature" 0).getD g0
  ((createVersion g1 "Hello World").map Prod.fst).getD g1

/-- A session whose members are `"alice"` and `"bob"`, with `"alice"`
holding the section lock `"s1"` and owning a selection. -/
def sessDisc : Session :=
  { clients := ["alice", "bob"], content := "x", version := 3,
    comments := ["note"], selections := [("alice", (1, 2))],
    locks := [("s1", { clientId := "alice", timestamp := 0 })] }

/-- A hub holding `sessDisc` as document `"D"`, with both members connected
and `"alice"` owning a cursor. -/
def hubDisc : Hub :=
  { documents := [("D", sessDisc)],
    clients := [(1, "alice"), (2, "bob")],
    cursors := [("alice", 5)] }

/-- An unlocked session at version `0` joined by `"alice"` and `"bob"`. -/
def sessLocks : Session :=
  { clients := ["alice", "bob"], content := "", version := 0,
    comments := [], selections := [], locks := [] }

/-- A hub holding `sessLocks` as document `"D"`. -/
def hubLocks : Hub :=
  { documents := [("D", sessLocks)],
    clients := [(1, "alice"), (2, "bob")],
    cursors := [] }

/-- The session after a successfully applied change: the patched content and
the incremented counter, everything else untouched (the mutation
`handleChange` performs on a version match). -/
def applyChange (doc : Session) (changes : PatchSet) : Session :=
  { doc with content := (patch_apply changes doc.content).1,
             version := doc.version + 1 }

/-! ### Claims -/

/-- C2: a change submission whose `clientBaseVersion` differs from the
session's version counter is answered with `sync-required` carrying the
current version, and the hub performs no mutation at all — the state (and
with it the session's content, version, comments and locks) is returned
unchanged. -/
theorem C2_stale_change_rejected (hub : Hub) (ws : Nat) (documentId : String)
    (changes : PatchSet) (version : Nat) (doc : Session)
    (hdoc : alookup hub.documents documentId = some doc)
    (hne : doc.version ≠ version) :
    handleChange hub ws documentId changes version
      = (hub, [(ws, Msg.syncRequired (some doc.version))]) := by
  simp [handleChange, hdoc, hne]

/-- Witness for C2 at a concrete hub: submitting against `sessLocks`
(version `0`) with base version `7` yields `sync-required` at version `0`
and the unchanged hub. -/
theorem C2_stale_change_rejected_witness :
    handleChange hubLocks 1 "D" [] 7
      = (hubLocks, [(1, Msg.syncRequired (some 0))]) :=
  C2_stale_change_rejected hubLocks 1 "D" [] 7 sessLocks (by decide) (by decide)

/-- C5: the bidirectional-consistency invariant fails on the code — after
`initializeDocument "Hello"` and a `restore` of the root, the restored node
(id `1`) names the root (id `0`) as its parent, yet the root's `children`
list is still empty: `restore` never appends the new node to its parent's
`children`, unlike `createVersion` and `mergeBranches`. -/
theorem C5_restore_breaks_bidirectional_consistency :
    (restore (initializeDocument "Hello").1 0).map
        (fun r => (r.2.parent, r.2.id, (alookup r.1.versions 0).map VNode.children))
      = some (some 0, 1, some []) := by decide

/-- C7: for every existing document session, `lockSection` succeeds exactly
when no lock currently holds the section, and `unlockSection` succeeds
exactly when a lock exists for the section and its recorded holder is the
caller; and the concrete scenario holds — `"alice"` locks `"s1"`, `"bob"`'s
lock and unlock both fail, `"alice"`'s unlock succeeds, after which
`"bob"`'s lock succeeds. -/
theorem C7_section_lock_protocol :
    (∀ (hub : Hub) (documentId sectionId : String) (clientId : ClientId)
       (now : Nat) (doc : Session),
       alookup hub.documents documentId = some doc →
       ((lockSection hub documentId sectionId clientId now).2 = true ↔
         alookup doc.locks sectionId = none)) ∧
    (∀ (hub : Hub) (documentId sectionId : String) (clientId : ClientId)
       (doc : Session),
       alookup hub.documents documentId = some doc →
       ((unlockSection hub documentId sectionId clientId).2 = true ↔
         ∃ lock, alookup doc.locks sectionId = some lock ∧
           lock.clientId = clientId)) ∧
    ((lockSection hubLocks "D" "s1" "alice" 0).2 = true ∧
     (lockSection (lockSection hubLocks "D" "s1" "alice" 0).1.1
        "D" "s1" "bob" 1).2 = false ∧
     (unlockSection (lockSection hubLocks "D" "s1" "alice" 0).1.1
        "D" "s1" "bob").2 = false ∧
     (unlockSection (lockSection hubLocks "D" "s1" "alice" 0).1.1
        "D" "s1" "alice").2 = true ∧
     (lockSection (unlockSection (lockSection hubLocks "D" "s1" "alice" 0).1.1
        "D" "s1" "alice").1.1 "D" "s1" "bob" 2).2 = true) := by
  refine ⟨?_, ?_, by decide⟩
  · intro hub documentId sectionId clientId now doc hdoc
    cases hlock : alookup doc.locks sectionId <;>
      simp [lockSection, hdoc, hlock]
  · intro hub documentId sectionId clientId doc hdoc
    cases hlock : alookup doc.locks sectionId with
    | none => simp [unlockSection, hdoc, hlock]
    | some lock =>
      by_cases hcl : lock.clientId = clientId <;>
        simp [unlockSection, hdoc, hlock, hcl]

/-- Unfolding of `mergeBranches` once both tips and the common ancestor
resolve: the merge node, the children pushes and the pointer move, laid out
for the claims about merging. -/
theorem mergeBranches_eq (g : DocGraph) (s t r : String)
    (sTip tTip : Nat) (sv tv anc : VNode)
    (hs : alookup g.branches s = some sTip)
    (ht : alookup g.branches t = some tTip)
    (hsv : alookup g.versions sTip = some sv)
    (htv : alookup g.versions tTip = some tv)
    (hanc : findCommonAncestor g.versions sv tv = some anc) :
    mergeBranches g s t r =
      (let merged :=
        if r = "auto" then
          autoMerge anc.content (patch_make anc.content sv.content)
            (patch_make anc.content tv.content)
        else
          (if r = "source" then sv.content else tv.content, []);
      let m : VNode :=
        { id := g.nextId, content := merged.1, hash := generateHash merged.1,
          parent := some tv.id, children := [], mtype := "merge" };
      some ({ versions := pushChild (pushChild (aset g.versions m.id m) tTip m.id)
                            sTip m.id,
              branches := aset g.branches t m.id,
              nextId := g.nextId + 1 }, m, merged.2)) := by
  simp [mergeBranches, hs, ht, hsv, htv, hanc]

/-- After writing the fresh merge node, the lookup of an existing tip still
sees the stored node, and both `children.push` mutations are visible: the
merge id ends up in the children of the node stored at each tip key. -/
theorem pushChild_mem (versions : List (Nat × VNode)) (pid cid : Nat) (v : VNode)
    (h : alookup versions pid = some v) :
    alookup (pushChild versions pid cid) pid
      = some { v with children := v.children ++ [cid] } := by
  simp [pushChild, h, alookup_aset]

/-- Looking a different key up skips a `children.push` on another node. -/
theorem pushChild_other (versions : List (Nat × VNode)) (pid cid k : Nat)
    (hne : k ≠ pid) :
    alookup (pushChild versions pid cid) k = alookup versions k := by
  cases h : alookup versions pid <;> simp [pushChild, h, alookup_aset, hne]

/-- C1 counterexample: in the branching scenario the source branch
`"feature"` has tip `0` and the target `"main"` has tip `1`, yet the merge
node's parent list is `[1]` — a single parent, the target tip — not the two
parents `{source tip, target tip}` the claim states. -/
theorem C1_merge_node_has_one_parent :
    alookup gScenario.branches "feature" = some 0 ∧
    alookup gScenario.branches "main" = some 1 ∧
    (mergeBranches gScenario "feature" "main" "auto").map
        (fun res => parents res.2.1) = some [1] := by decide

/-- Both tips of a merge see the merge id in their `children` after the
fresh-node write and the two `children.push` mutations, whether or not the
two tips coincide. -/
theorem children_after_pushes (versions : List (Nat × VNode))
    (sTip tTip mId : Nat) (sv tv m : VNode)
    (hsv : alookup versions sTip = some sv)
    (htv : alookup versions tTip = some tv)
    (hsne : sTip ≠ mId) (htne : tTip ≠ mId) :
    (∃ tvw, alookup (pushChild (pushChild (aset versions mId m) tTip mId)
        sTip mId) tTip = some tvw ∧ mId ∈ tvw.children) ∧
    (∃ svw, alookup (pushChild (pushChild (aset versions mId m) tTip mId)
        sTip mId) sTip = some svw ∧ mId ∈ svw.children) := by
  have h0t : alookup (aset versions mId m) tTip = some tv := by
    rw [alookup_aset]; simp [htne, htv]
  have h0s : alookup (aset versions mId m) sTip = some sv := by
    rw [alookup_aset]; simp [hsne, hsv]
  by_cases hst : sTip = tTip
  · subst hst
    constructor <;>
      · rw [pushChild_mem _ _ _ _ (pushChild_mem _ _ _ _ h0t)]
        exact ⟨_, rfl, by simp⟩
  · constructor
    · rw [pushChild_other _ _ _ _ (fun h => hst h.symm),
        pushChild_mem _ _ _ _ h0t]
      exact ⟨_, rfl, by simp⟩
    · have h1 : alookup (pushChild (aset versions mId m) tTip mId) sTip
          = some sv := by
        rw [pushChild_other _ _ _ _ hst]; exact h0s
      rw [pushChild_mem _ _ _ _ h1]
      exact ⟨_, rfl, by simp⟩

/-- C1 amended: `mergeBranches` returns a merge node whose single `parent`
field names the target branch's tip; the source tip is connected to the
merge node only through its `children` set (both tips record the merge node
as a child), and the target branch pointer advances to it. -/
theorem C1_merge_parent_children_pointer (g : DocGraph) (s t r : String)
    (sTip tTip : Nat) (sv tv anc : VNode)
    (hs : alookup g.branches s = some sTip)
    (ht : alookup g.branches t = some tTip)
    (hsv : alookup g.versions sTip = some sv)
    (htv : alookup g.versions tTip = some tv)
    (hanc : findCommonAncestor g.versions sv tv = some anc)
    (hfresh : alookup g.versions g.nextId = none) :
    ∃ g' m conflicts, mergeBranches g s t r = some (g', m, conflicts) ∧
      m.id = g.nextId ∧
      m.parent = some tv.id ∧ parents m = [tv.id] ∧
      alookup g'.branches t = some m.id ∧
      (∃ tvw, alookup g'.versions tTip = some tvw ∧ m.id ∈ tvw.children) ∧
      (∃ svw, alookup g'.versions sTip = some svw ∧ m.id ∈ svw.children) := by
  have hsne : sTip ≠ g.nextId := fun h => by
    rw [h, hfresh] at hsv; exact Option.noConfusion hsv
  have htne : tTip ≠ g.nextId := fun h => by
    rw [h, hfresh] at htv; exact Option.noConfusion htv
  rw [mergeBranches_eq g s t r sTip tTip sv tv anc hs ht hsv htv hanc]
  refine ⟨_, _, _, rfl, rfl, rfl, rfl, ?_, ?_, ?_⟩
  · rw [alookup_aset]; simp
  · exact (children_after_pushes g.versions sTip tTip g.nextId sv tv _
      hsv htv hsne htne).1
  · exact (children_after_pushes g.versions sTip tTip g.nextId sv tv _
      hsv htv hsne htne).2

/-- Witness for the amended C1 at the branching scenario: merging
`"feature"` (tip `0`) into `"main"` (tip `1`) yields a node parented at the
target tip, recorded as a child of both tips, with `"main"` advanced. -/
theorem C1_merge_parent_children_pointer_witness :
    ∃ g' m conflicts,
      mergeBranches gScenario "feature" "main" "auto" = some (g', m, conflicts) ∧
      m.id = gScenario.nextId ∧
      m.parent = some 1 ∧ parents m = [1] ∧
      alookup g'.branches "main" = some m.id ∧
      (∃ tvw, alookup g'.versions 1 = some tvw ∧ m.id ∈ tvw.children) ∧
      (∃ svw, alookup g'.versions 0 = some svw ∧ m.id ∈ svw.children) := by
  have h := C1_merge_parent_children_pointer gScenario "feature" "main" "auto"
    0 1 ((alookup gScenario.versions 0).getD default)
    ((alookup gScenario.versions 1).getD default)
    ((findCommonAncestor gScenario.versions
        ((alookup gScenario.versions 0).getD default)
        ((alookup gScenario.versions 1).getD default)).getD default)
    (by decide) (by decide) (by decide) (by decide) (by decide) (by decide)
  simpa using h

/-- Looking a document up after the disconnect loop: a session holding the
client lost exactly its membership and its selection entry, any other
session is untouched; in particular `locks` are never touched. -/
theorem disconnectDocsLoop_lookup (clientsMap : List (Nat × ClientId))
    (c : ClientId) :
    ∀ (docs : List (String × Session)) (docId : String) (doc : Session),
      alookup docs docId = some doc →
      alookup (disconnectDocsLoop clientsMap c docs).1 docId =
        some (if c ∈ doc.clients then
                { doc with clients := doc.clients.erase c,
                           selections := aerase doc.selections c }
              else doc) := by
  intro docs
  induction docs with
  | nil => intro docId doc h; exact absurd h (by simp [alookup])
  | cons hd rest ih =>
    obtain ⟨k, d⟩ := hd
    intro docId doc h
    by_cases hm : c ∈ d.clients <;> by_cases hk : docId = k
    · subst hk
      simp [alookup] at h
      subst h
      simp [disconnectDocsLoop, hm, alookup]
    · simp only [alookup, if_neg hk] at h
      simp [disconnectDocsLoop, hm, alookup, hk, ih docId doc h]
    · subst hk
      simp [alookup] at h
      subst h
      simp [disconnectDocsLoop, hm, alookup]
    · simp only [alookup, if_neg hk] at h
      simp [disconnectDocsLoop, hm, alookup, hk, ih docId doc h]

/-- Every message the disconnect loop emits is a `user-left` notice for the
departing client. -/
theorem disconnectDocsLoop_msgs (clientsMap : List (Nat × ClientId))
    (c : ClientId) :
    ∀ (docs : List (String × Session)) (m : Nat × Msg),
      m ∈ (disconnectDocsLoop clientsMap c docs).2 → m.2 = Msg.userLeft c := by
  intro docs
  induction docs with
  | nil => intro m h; simp [disconnectDocsLoop] at h
  | cons hd rest ih =>
    obtain ⟨k, d⟩ := hd
    intro m h
    by_cases hm : c ∈ d.clients
    · simp only [disconnectDocsLoop, if_pos hm, List.mem_append] at h
      rcases h with h | h
      · obtain ⟨e, _, he⟩ := List.mem_filterMap.mp h
        by_cases hmem : e.2 ∈ d.clients.erase c
        · simp only [List.mem_erase_of_ne, if_pos hmem, Option.some.injEq] at he
          exact he ▸ rfl
        · simp [hmem] at he
      · exact ih m h
    · simp only [disconnectDocsLoop, if_neg hm] at h
      exact ih m h

/-- Every remaining connection whose client stays a member of a session the
departing client belonged to receives the `user-left` notice for it. -/
theorem disconnectDocsLoop_notifies (clientsMap : List (Nat × ClientId))
    (c : ClientId) :
    ∀ (docs : List (String × Session)) (docId : String) (doc : Session),
      alookup docs docId = some doc → c ∈ doc.clients →
      ∀ (wsr : Nat) (cid : ClientId), (wsr, cid) ∈ clientsMap →
        cid ∈ doc.clients.erase c →
        (wsr, Msg.userLeft c) ∈ (disconnectDocsLoop clientsMap c docs).2 := by
  intro docs
  induction docs with
  | nil => intro docId doc h; exact absurd h (by simp [alookup])
  | cons hd rest ih =>
    obtain ⟨k, d⟩ := hd
    intro docId doc h hmem wsr cid hconn hstay
    by_cases hk : docId = k
    · subst hk
      simp [alookup] at h
      subst h
      simp only [disconnectDocsLoop, if_pos hmem, List.mem_append]
      exact Or.inl (List.mem_filterMap.mpr ⟨(wsr, cid), hconn, by simp [hstay]⟩)
    · simp only [alookup, if_neg hk] at h
      have htail := ih docId doc h hmem wsr cid hconn hstay
      by_cases hm : c ∈ d.clients <;>
        simp [disconnectDocsLoop, hm, List.mem_append, htail]

/-- C4 counterexample: `"alice"` holds lock `"s1"` in document `"D"` and is
the client behind connection `1`; after `handleClientDisconnect` of that
connection the lock is still recorded with `"alice"` as holder, though the
claim requires every lock held by the disconnecting client to be removed. -/
theorem C4_lock_survives_disconnect :
    alookup hubDisc.clients 1 = some "alice" ∧
    (alookup (handleClientDisconnect hubDisc 1).1.documents "D").map
        Session.locks
      = some [("s1", { clientId := "alice", timestamp := 0 })] := by decide

/-- C4 amended: on disconnect the client's cursor entry, session membership
and selections are removed from every document session it was joined to,
every emitted message is a `user-left` notice for it and every remaining
member connection of such a session receives that notice — but the section
locks of every session, the disconnecting client's included, are left
exactly as they were. -/
theorem C4_disconnect_cleanup (hub : Hub) (ws : Nat) (c : ClientId)
    (hc : alookup hub.clients ws = some c) :
    (handleClientDisconnect hub ws).1.clients = aerase hub.clients ws ∧
    (handleClientDisconnect hub ws).1.cursors = aerase hub.cursors c ∧
    (∀ (docId : String) (doc : Session),
       alookup hub.documents docId = some doc →
       alookup (handleClientDisconnect hub ws).1.documents docId =
         some (if c ∈ doc.clients then
                 { doc with clients := doc.clients.erase c,
                            selections := aerase doc.selections c }
               else doc)) ∧
    (∀ (docId : String) (doc : Session),
       alookup hub.documents docId = some doc →
       ∃ doc', alookup (handleClientDisconnect hub ws).1.documents docId
           = some doc' ∧ doc'.locks = doc.locks) ∧
    (∀ m ∈ (handleClientDisconnect hub ws).2, m.2 = Msg.userLeft c) ∧
    (∀ (docId : String) (doc : Session),
       alookup hub.documents docId = some doc → c ∈ doc.clients →
       ∀ (wsr : Nat) (cid : ClientId), (wsr, cid) ∈ aerase hub.clients ws →
         cid ∈ doc.clients.erase c →
         (wsr, Msg.userLeft c) ∈ (handleClientDisconnect hub ws).2) := by
  simp only [handleClientDisconnect, hc]
  refine ⟨trivial, trivial, ?_, ?_, ?_, ?_⟩
  · intro docId doc h
    exact disconnectDocsLoop_lookup (aerase hub.clients ws) c hub.documents
      docId doc h
  · intro docId doc h
    rw [disconnectDocsLoop_lookup (aerase hub.clients ws) c hub.documents
      docId doc h]
    by_cases hm : c ∈ doc.clients <;> simp [hm]
  · intro m h
    exact disconnectDocsLoop_msgs (aerase hub.clients ws) c hub.documents m h
  · intro docId doc h hmem wsr cid hconn hstay
    exact disconnectDocsLoop_notifies (aerase hub.clients ws) c hub.documents
      docId doc h hmem wsr cid hconn hstay

/-- Witness for the amended C4 at `hubDisc`: disconnecting `"alice"`'s
connection drops her from the client map and cursors, erases her membership
and selection in `"D"`, keeps the `"s1"` lock untouched, and emits only
`user-left` notices, `"bob"`'s among them. -/
theorem C4_disconnect_cleanup_witness :
    (handleClientDisconnect hubDisc 1).1.clients = aerase hubDisc.clients 1 ∧
    (handleClientDisconnect hubDisc 1).1.cursors
      = aerase hubDisc.cursors "alice" ∧
    (∀ (docId : String) (doc : Session),
       alookup hubDisc.documents docId = some doc →
       alookup (handleClientDisconnect hubDisc 1).1.documents docId =
         some (if "alice" ∈ doc.clients then
                 { doc with clients := doc.clients.erase "alice",
                            selections := aerase doc.selections "alice" }
               else doc)) ∧
    (∀ (docId : String) (doc : Session),
       alookup hubDisc.documents docId = some doc →
       ∃ doc', alookup (handleClientDisconnect hubDisc 1).1.documents docId
           = some doc' ∧ doc'.locks = doc.locks) ∧
    (∀ m ∈ (handleClientDisconnect hubDisc 1).2, m.2 = Msg.userLeft "alice") ∧
    (∀ (docId : String) (doc : Session),
       alookup hubDisc.documents docId = some doc → "alice" ∈ doc.clients →
       ∀ (wsr : Nat) (cid : ClientId), (wsr, cid) ∈ aerase hubDisc.clients 1 →
         cid ∈ doc.clients.erase "alice" →
         (wsr, Msg.userLeft "alice") ∈ (handleClientDisconnect hubDisc 1).2) :=
  C4_disconnect_cleanup hubDisc 1 "alice" (by decide)

/-- C3: a change submission whose base version equals the session's counter
is never rejected — no `sync-required` is emitted — the patch set is applied
to the session content, the counter grows by exactly one, no other session
and no other hub state is touched, and the change with the new version is
sent to exactly the connections of the document's other members, the
submitting client excluded. -/
theorem C3_matched_change_applies (hub : Hub) (ws : Nat) (documentId : String)
    (changes : PatchSet) (doc : Session) (cid : ClientId)
    (hdoc : alookup hub.documents documentId = some doc)
    (hcid : alookup hub.clients ws = some cid) :
    (∀ m ∈ (handleChange hub ws documentId changes doc.version).2,
       ∀ v, m.2 ≠ Msg.syncRequired v) ∧
    alookup (handleChange hub ws documentId changes doc.version).1.documents
        documentId
      = some { doc with content := (patch_apply changes doc.content).1,
                        version := doc.version + 1 } ∧
    (∀ d, d ≠ documentId →
       alookup (handleChange hub ws documentId changes doc.version).1.documents d
         = alookup hub.documents d) ∧
    (handleChange hub ws documentId changes doc.version).1.clients
      = hub.clients ∧
    (handleChange hub ws documentId changes doc.version).1.cursors
      = hub.cursors ∧
    (handleChange hub ws documentId changes doc.version).2
      = hub.clients.filterMap (fun e =>
          if e.2 ∈ doc.clients ∧ e.2 ≠ cid then
            some (e.1, Msg.change changes (doc.version + 1) (some cid))
          else none) := by
  have hred : handleChange hub ws documentId changes doc.version
      = ({ hub with
             documents := aset hub.documents documentId (applyChange doc changes) },
         broadcast
           { hub with
               documents := aset hub.documents documentId (applyChange doc changes) }
           documentId (Msg.change changes (doc.version + 1) (some cid)) [cid]) := by
    simp [handleChange, applyChange, hdoc, hcid]
  have hmsgs : (handleChange hub ws documentId changes doc.version).2
      = hub.clients.filterMap (fun e =>
          if e.2 ∈ doc.clients ∧ e.2 ≠ cid then
            some (e.1, Msg.change changes (doc.version + 1) (some cid))
          else none) := by
    rw [hred]
    simp only [broadcast, alookup_aset, if_pos rfl]
    simp [ne_eq, applyChange]
  refine ⟨?_, ?_, ?_, ?_, ?_, hmsgs⟩
  · intro m hm v
    rw [hmsgs] at hm
    obtain ⟨e, _, he⟩ := List.mem_filterMap.mp hm
    by_cases hc : e.2 ∈ doc.clients ∧ e.2 ≠ cid
    · simp only [if_pos hc, Option.some.injEq] at he
      rw [← he]
      simp
    · simp [hc] at he
  · rw [hred]
    simp [alookup_aset, applyChange]
  · intro d hd
    rw [hred]
    simp [alookup_aset, hd]
  · rw [hred]
  · rw [hred]

/-- Witness for C3 at `hubLocks`: `"alice"` (connection `1`) submits at the
session's version `0`; the patch applies, the version becomes `1`, and
exactly `"bob"`'s connection receives the change. -/
theorem C3_matched_change_applies_witness :
    (∀ m ∈ (handleChange hubLocks 1 "D" [] sessLocks.version).2,
       ∀ v, m.2 ≠ Msg.syncRequired v) ∧
    alookup (handleChange hubLocks 1 "D" [] sessLocks.version).1.documents "D"
      = some { sessLocks with
                 content := (patch_apply [] sessLocks.content).1,
                 version := sessLocks.version + 1 } ∧
    (∀ d, d ≠ "D" →
       alookup (handleChange hubLocks 1 "D" [] sessLocks.version).1.documents d
         = alookup hubLocks.documents d) ∧
    (handleChange hubLocks 1 "D" [] sessLocks.version).1.clients
      = hubLocks.clients ∧
    (handleChange hubLocks 1 "D" [] sessLocks.version).1.cursors
      = hubLocks.cursors ∧
    (handleChange hubLocks 1 "D" [] sessLocks.version).2
      = hubLocks.clients.filterMap (fun e =>
          if e.2 ∈ sessLocks.clients ∧ e.2 ≠ "alice" then
            some (e.1, Msg.change [] (sessLocks.version + 1) (some "alice"))
          else none) :=
  C3_matched_change_applies hubLocks 1 "D" [] sessLocks "alice"
    (by decide) (by decide)

/-- Membership in the conflict list built by the `forEach` loop: exactly the
positions whose applied flag is `false`, each paired with the target diff's
patch at that position. -/
theorem collectConflictsFrom_mem (td : PatchSet) :
    ∀ (results : List Bool) (i0 : Nat) (c : Conflict),
      c ∈ collectConflictsFrom td i0 results ↔
        ∃ j, j < results.length ∧ results.getD j true = false ∧
          c.index = i0 + j ∧ c.patch = td.getD (i0 + j) default := by
  intro results
  induction results with
  | nil =>
    intro i0 c
    simp [collectConflictsFrom]
  | cons a rest ih =>
    intro i0 c
    have hidx : ∀ j : Nat, i0 + 1 + j = i0 + (j + 1) := by omega
    cases a
    case false =>
      simp only [collectConflictsFrom, Bool.false_eq_true, if_false,
        List.mem_cons]
      rw [ih (i0 + 1) c]
      constructor
      · rintro (rfl | ⟨j, hj, hf, hbi, hbp⟩)
        · exact ⟨0, by simp, by simp, by simp, by simp⟩
        · rw [hidx j] at hbi hbp
          exact ⟨j + 1, by simpa using Nat.succ_lt_succ hj, by simpa using hf,
            hbi, hbp⟩
      · rintro ⟨j, hj, hf, hbi, hbp⟩
        cases j with
        | zero =>
          left
          cases c
          simp only [Nat.add_zero] at hbi hbp
          simp [hbi, hbp]
        | succ j' =>
          right
          rw [← hidx j'] at hbi hbp
          exact ⟨j', by simpa using Nat.lt_of_succ_lt_succ hj,
            by simpa using hf, hbi, hbp⟩
    case true =>
      simp only [collectConflictsFrom, if_true]
      rw [ih (i0 + 1) c]
      constructor
      · rintro ⟨j, hj, hf, hbi, hbp⟩
        rw [hidx j] at hbi hbp
        exact ⟨j + 1, by simpa using Nat.succ_lt_succ hj, by simpa using hf,
          hbi, hbp⟩
      · rintro ⟨j, hj, hf, hbi, hbp⟩
        cases j with
        | zero => simp at hf
        | succ j' =>
          rw [← hidx j'] at hbi hbp
          exact ⟨j', by simpa using Nat.lt_of_succ_lt_succ hj,
            by simpa using hf, hbi, hbp⟩

/-- A list of `true` flags reads `true` at every position. -/
theorem replicate_getD_true (n j : Nat) :
    (List.replicate n true).getD j true = true := by
  induction n generalizing j with
  | zero => simp
  | succ n ih => cases j <;> simp [List.replicate, ih]

/-- C6: in a `mergeBranches` run with `resolution = "auto"`, the source
branch's diff from the common ancestor and then the target branch's diff
are applied in sequence onto the ancestor content; every patch segment —
from either application — that fails to apply is recorded in the returned
conflicts list as an entry `{index, patch}` (the source diff is applied to
the very ancestor content it was computed from, so by the codec round-trip
all its flags come back `true` and it contributes no failing segment, as a
conjunct states explicitly); and a merge node is always produced with the
target branch pointer advanced, whether or not the conflicts list is
empty. -/
theorem C6_auto_merge_records_failures (g : DocGraph) (s t : String)
    (sTip tTip : Nat) (sv tv anc : VNode)
    (hs : alookup g.branches s = some sTip)
    (ht : alookup g.branches t = some tTip)
    (hsv : alookup g.versions sTip = some sv)
    (htv : alookup g.versions tTip = some tv)
    (hanc : findCommonAncestor g.versions sv tv = some anc) :
    ∃ g' m conflicts, mergeBranches g s t "auto" = some (g', m, conflicts) ∧
      m.content = (patch_apply (patch_make anc.content tv.content)
        (patch_apply (patch_make anc.content sv.content) anc.content).1).1 ∧
      (∀ flag ∈ (patch_apply (patch_make anc.content sv.content)
          anc.content).2, flag = true) ∧
      (∀ j, j < (patch_make anc.content sv.content).length →
         (patch_apply (patch_make anc.content sv.content)
             anc.content).2.getD j true = false →
         ({ index := j,
            patch := (patch_make anc.content sv.content).getD j default } :
           Conflict) ∈ conflicts) ∧
      (∀ j, j < (patch_make anc.content tv.content).length →
         (patch_apply (patch_make anc.content tv.content)
             (patch_apply (patch_make anc.content sv.content)
               anc.content).1).2.getD j true = false →
         ({ index := j,
            patch := (patch_make anc.content tv.content).getD j default } :
           Conflict) ∈ conflicts) ∧
      alookup g'.branches t = some m.id := by
  rw [mergeBranches_eq g s t "auto" sTip tTip sv tv anc hs ht hsv htv hanc]
  have hsflags : (patch_apply (patch_make anc.content sv.content)
      anc.content).2
      = List.replicate (patch_make anc.content sv.content).length true := by
    rw [patch_roundtrip]
  refine ⟨_, _, _, rfl, by simp [autoMerge], ?_, ?_, ?_, ?_⟩
  · intro flag hflag
    rw [hsflags] at hflag
    exact List.eq_of_mem_replicate hflag
  · intro j _ hf
    rw [hsflags, replicate_getD_true] at hf
    exact absurd hf (by simp)
  · intro j hj hf
    have hlen := patch_apply_length (patch_make anc.content tv.content)
      (patch_apply (patch_make anc.content sv.content) anc.content).1
    have hmem := (collectConflictsFrom_mem (patch_make anc.content tv.content)
      (patch_apply (patch_make anc.content tv.content)
        (patch_apply (patch_make anc.content sv.content) anc.content).1).2 0
      { index := j,
        patch := (patch_make anc.content tv.content).getD j default }).mpr
      ⟨j, hlen.symm ▸ hj, hf, by simp, by simp⟩
    simpa [autoMerge] using hmem
  · rw [alookup_aset]
    simp

/-- Witness for C6 at the branching scenario: merging `"feature"` (tip `0`,
the root `"Hello"`) into `"main"` (tip `1`, `"Hello World"`) with the root
as ancestor produces a merge node, applies source then target onto the
ancestor content with every source flag `true`, records all failing
segments, and advances `"main"`. -/
theorem C6_auto_merge_records_failures_witness :
    ∃ g' m conflicts,
      mergeBranches gScenario "feature" "main" "auto"
        = some (g', m, conflicts) ∧
      m.content = (patch_apply
        (patch_make ((findCommonAncestor gScenario.versions
            ((alookup gScenario.versions 0).getD default)
            ((alookup gScenario.versions 1).getD default)).getD default).content
          ((alookup gScenario.versions 1).getD default).content)
        (patch_apply
          (patch_make ((findCommonAncestor gScenario.versions
              ((alookup gScenario.versions 0).getD default)
              ((alookup gScenario.versions 1).getD default)).getD
                default).content
            ((alookup gScenario.versions 0).getD default).content)
          ((findCommonAncestor gScenario.versions
              ((alookup gScenario.versions 0).getD default)
              ((alookup gScenario.versions 1).getD default)).getD
                default).content).1).1 ∧
      (∀ flag ∈ (patch_apply
          (patch_make ((findCommonAncestor gScenario.versions
              ((alookup gScenario.versions 0).getD default)
              ((alookup gScenario.versions 1).getD default)).getD
                default).content
            ((alookup gScenario.versions 0).getD default).content)
          ((findCommonAncestor gScenario.versions
              ((alookup gScenario.versions 0).getD default)
              ((alookup gScenario.versions 1).getD default)).getD
                default).content).2, flag = true) ∧
      (∀ j, j < (patch_make ((findCommonAncestor gScenario.versions
            ((alookup gScenario.versions 0).getD default)
            ((alookup gScenario.versions 1).getD default)).getD
              default).content
          ((alookup gScenario.versions 0).getD default).content).length →
         (patch_apply
             (patch_make ((findCommonAncestor gScenario.versions
                 ((alookup gScenario.versions 0).getD default)
                 ((alookup gScenario.versions 1).getD default)).getD
                   default).content
               ((alookup gScenario.versions 0).getD default).content)
             ((findCommonAncestor gScenario.versions
                 ((alookup gScenario.versions 0).getD default)
                 ((alookup gScenario.versions 1).getD default)).getD
                   default).content).2.getD j true = false →
         ({ index := j,
            patch := (patch_make ((findCommonAncestor gScenario.versions
                ((alookup gScenario.versions 0).getD default)
                ((alookup gScenario.versions 1).getD default)).getD
                  default).content
              ((alookup gScenario.versions 0).getD default).content).getD j
                default } : Conflict) ∈ conflicts) ∧
      (∀ j, j < (patch_make ((findCommonAncestor gScenario.versions
            ((alookup gScenario.versions 0).getD default)
            ((alookup gScenario.versions 1).getD default)).getD
              default).content
          ((alookup gScenario.versions 1).getD default).content).length →
         (patch_apply
             (patch_make ((findCommonAncestor gScenario.versions
                 ((alookup gScenario.versions 0).getD default)
                 ((alookup gScenario.versions 1).getD default)).getD
                   default).content
               ((alookup gScenario.versions 1).getD default).content)
             (patch_apply
               (patch_make ((findCommonAncestor gScenario.versions
                   ((alookup gScenario.versions 0).getD default)
                   ((alookup gScenario.versions 1).getD default)).getD
                     default).content
                 ((alookup gScenario.versions 0).getD default).content)
               ((findCommonAncestor gScenario.versions
                   ((alookup gScenario.versions 0).getD default)
                   ((alookup gScenario.versions 1).getD default)).getD
                     default).content).1).2.getD j true = false →
         ({ index := j,
            patch := (patch_make ((findCommonAncestor gScenario.versions
                ((alookup gScenario.versions 0).getD default)
                ((alookup gScenario.versions 1).getD default)).getD
                  default).content
              ((alookup gScenario.versions 1).getD default).content).getD j
                default } : Conflict) ∈ conflicts) ∧
      alookup g'.branches "main" = some m.id :=
  C6_auto_merge_records_failures gScenario "feature" "main" 0 1
    ((alookup gScenario.versions 0).getD default)
    ((alookup gScenario.versions 1).getD default)
    ((findCommonAncestor gScenario.versions
        ((alookup gScenario.versions 0).getD default)
        ((alookup gScenario.versions 1).getD default)).getD default)
    (by decide) (by decide) (by decide) (by decide) (by decide)

/-- In a version map keyed by node id, a successful lookup returns a node
carrying the looked-up id. -/
theorem keyed_lookup (versions : List (Nat × VNode))
    (hkeys : keyedVersions versions = true) :
    ∀ (k : Nat) (v : VNode), alookup versions k = some v → v.id = k := by
  induction versions with
  | nil => intro k v h; exact absurd h (by simp [alookup])
  | cons hd rest ih =>
    intro k v h
    have hall := hkeys
    simp only [keyedVersions, List.all_cons, Bool.and_eq_true] at hall
    by_cases hk : k = hd.1
    · subst hk
      have : some hd.2 = some v := by
        simpa [alookup] using h
      cases this
      simpa using hall.1
    · have : alookup rest k = some v := by
        obtain ⟨k0, v0⟩ := hd
        simpa [alookup, hk] using h
      exact ih (by simpa [keyedVersions] using hall.2) k v this

/-- The fuel-bounded first-parent walk succeeds whenever its start is rooted
within the fuel, and the chain it returns is first-parent linked, ends at a
parentless node, and starts at the node stored under the start id. -/
theorem historyWalk_of_rootedBy (versions : List (Nat × VNode))
    (hkeys : keyedVersions versions = true) :
    ∀ (fuel : Nat) (s : Option Nat), rootedBy versions fuel s = true →
      ∃ h, historyWalk versions fuel s = some h ∧ linked h = true ∧
        endsAtRoot h = true ∧
        (∀ id, s = some id → ∃ v rest, h = v :: rest ∧
          alookup versions id = some v) := by
  intro fuel
  induction fuel with
  | zero =>
    intro s hr
    cases s with
    | none => exact ⟨[], rfl, rfl, rfl, by simp⟩
    | some id => exact absurd hr (by simp [rootedBy])
  | succ fuel ih =>
    intro s hr
    cases s with
    | none => exact ⟨[], rfl, rfl, rfl, by simp⟩
    | some id =>
      cases hv : alookup versions id with
      | none => rw [rootedBy, hv] at hr; exact absurd hr (by simp)
      | some v =>
        rw [rootedBy, hv] at hr
        obtain ⟨h', hw, hl, he, hh⟩ := ih v.parent hr
        refine ⟨v :: h', by simp [historyWalk, hv, hw], ?_, ?_,
          fun i hi => by cases hi; exact ⟨v, h', rfl, hv⟩⟩
        · cases hp : v.parent with
          | none =>
            have : h' = [] := by
              rw [hp] at hw
              simpa [historyWalk] using hw.symm
            subst this
            simp [linked]
          | some pid =>
            obtain ⟨w, rest, hh', hlw⟩ := hh pid hp
            subst hh'
            have hwid : w.id = pid := keyed_lookup versions hkeys pid w hlw
            simp [linked, hp, hwid, hl]
        · cases hp : v.parent with
          | none =>
            have : h' = [] := by
              rw [hp] at hw
              simpa [historyWalk] using hw.symm
            subst this
            simp [endsAtRoot, hp]
          | some pid =>
            obtain ⟨w, rest, hh', _⟩ := hh pid hp
            subst hh'
            simpa [endsAtRoot] using he

/-- A chain that ends at a root has, when non-empty, a last element with an
empty parent list. -/
theorem endsAtRoot_getLast :
    ∀ h : List VNode, endsAtRoot h = true → h ≠ [] →
      ∃ last, h.getLast? = some last ∧ last.parent = none ∧
        parents last = [] := by
  intro h
  induction h with
  | nil => intro _ hne; exact absurd rfl hne
  | cons a rest ih =>
    intro he _
    cases rest with
    | nil =>
      simp only [endsAtRoot, decide_eq_true_eq] at he
      exact ⟨a, rfl, he, by simp [parents, he]⟩
    | cons b rest' =>
      have he' : endsAtRoot (b :: rest') = true := by
        simpa [endsAtRoot] using he
      obtain ⟨last, hgl, hpn, hpl⟩ := ih he' (by simp)
      exact ⟨last, by rw [List.getLast?_cons_cons]; exact hgl, hpn, hpl⟩

/-- C8: on a well-formed graph — version map keyed by node id and the tip's
first-parent chain reaching a root within `versions.length` steps, which is
what reachability from a root plus acyclicity give — `getHistory` of the
branch terminates with the linear chain that starts at the branch tip's
node, follows first parents link by link, and ends at a root node with zero
parents. -/
theorem C8_getHistory_reaches_root (g : DocGraph) (name : String) (tip : Nat)
    (hb : alookup g.branches name = some tip)
    (hkeys : keyedVersions g.versions = true)
    (hroot : rootedBy g.versions g.versions.length (some tip) = true) :
    ∃ h, getHistory g (some name) = some h ∧
      linked h = true ∧
      (∃ v rest, h = v :: rest ∧ alookup g.versions tip = some v) ∧
      (∃ last, h.getLast? = some last ∧ last.parent = none ∧
        parents last = []) := by
  obtain ⟨h, hw, hl, he, hh⟩ :=
    historyWalk_of_rootedBy g.versions hkeys g.versions.length (some tip) hroot
  obtain ⟨v, rest, hcons, hv⟩ := hh tip rfl
  refine ⟨h, ?_, hl, ⟨v, rest, hcons, hv⟩, ?_⟩
  · simp only [getHistory, hb]
    exact hw
  · exact endsAtRoot_getLast h he (hcons ▸ by simp)

/-- Witness for C8 at the branching scenario: the history of `"main"` (tip
`1`) is the two-node chain from node `1` down to the parentless root `0`. -/
theorem C8_getHistory_reaches_root_witness :
    ∃ h, getHistory gScenario (some "main") = some h ∧
      linked h = true ∧
      (∃ v rest, h = v :: rest ∧ alookup gScenario.versions 1 = some v) ∧
      (∃ last, h.getLast? = some last ∧ last.parent = none ∧
        parents last = []) :=
  C8_getHistory_reaches_root gScenario "main" 1 (by decide) (by decide)
    (by decide)

/-- C9: a `createVersion` from the current branch tip, followed by a
`getDiff` from the parent to the new node, applied by the codec onto the
parent's content, reproduces the new node's content exactly. -/
theorem C9_create_diff_apply_roundtrip (g : DocGraph) (g' : DocGraph)
    (content : String) (v : VNode) (name : String) (tip : Nat)
    (parentVersion : VNode)
    (hname : getCurrentBranchName g = some name)
    (htip : alookup g.branches name = some tip)
    (hparent : alookup g.versions tip = some parentVersion)
    (hfresh : alookup g.versions g.nextId = none)
    (hcv : createVersion g content = some (g', v)) :
    v.parent = some parentVersion.id ∧ v.content = content ∧
    ∃ ps, getDiff g' tip v.id = some ps ∧
      (patch_apply ps parentVersion.content).1 = v.content := by
  have htipne : tip ≠ g.nextId := fun h => by
    rw [h, hfresh] at hparent; exact Option.noConfusion hparent
  simp only [createVersion, hname, htip, hparent, Option.some.injEq,
    Prod.mk.injEq] at hcv
  obtain ⟨hg', hv⟩ := hcv
  subst hg' hv
  refine ⟨rfl, rfl, patch_make parentVersion.content content, ?_, ?_⟩
  · simp [getDiff, alookup_aset, htipne]
  · rw [patch_roundtrip]

/-- Witness for C9 at the branching scenario: committing `"Hello!"` on
`"main"` (tip `1`), the diff from node `1` to the new node applied to node
`1`'s content gives back `"Hello!"`. -/
theorem C9_create_diff_apply_roundtrip_witness :
    ((createVersion gScenario "Hello!").getD (default, default)).2.parent
        = some ((alookup gScenario.versions 1).getD default).id ∧
    ((createVersion gScenario "Hello!").getD (default, default)).2.content
        = "Hello!" ∧
    ∃ ps, getDiff ((createVersion gScenario "Hello!").getD (default, default)).1
        1 ((createVersion gScenario "Hello!").getD (default, default)).2.id
          = some ps ∧
      (patch_apply ps ((alookup gScenario.versions 1).getD default).content).1
        = ((createVersion gScenario "Hello!").getD (default, default)).2.content :=
  C9_create_diff_apply_roundtrip gScenario
    ((createVersion gScenario "Hello!").getD (default, default)).1 "Hello!"
    ((createVersion gScenario "Hello!").getD (default, default)).2 "main" 1
    ((alookup gScenario.versions 1).getD default)
    (by decide) (by decide) (by decide) (by decide) (by decide)

/-- A successful lookup can only happen in a non-empty association list. -/
theorem alookup_ne_nil {α β : Type} [DecidableEq α]
    (l : List (α × β)) (k : α) (x : β) (h : alookup l k = some x) : l ≠ [] := by
  intro hl
  subst hl
  simp [alookup] at h

/-- C10: the "current branch" read and advanced by `createVersion` and
`restore` is always the branch map's first key — `"main"` right after
`initializeDocument`, and preserved by `createBranch`, `createVersion`,
`mergeBranches` and `restore` alike — while `switchBranch` only returns the
named branch's version id and changes no state at all (its embedding has no
state output because the source only emits a notification). -/
theorem C10_current_branch_is_first_key :
    (∀ c : String,
       getCurrentBranchName (initializeDocument c).1 = some "main") ∧
    (∀ (g : DocGraph) (n : String), switchBranch g n = alookup g.branches n) ∧
    (∀ (g : DocGraph) (n : String) (sv : Nat) (g' : DocGraph),
       g.branches ≠ [] → createBranch g n sv = some g' →
       getCurrentBranchName g' = getCurrentBranchName g) ∧
    (∀ (g : DocGraph) (content : String) (g' : DocGraph) (v : VNode),
       createVersion g content = some (g', v) →
       getCurrentBranchName g' = getCurrentBranchName g ∧
       ∃ name tip pv, getCurrentBranchName g = some name ∧
         alookup g.branches name = some tip ∧
         alookup g.versions tip = some pv ∧
         v.parent = some pv.id ∧
         alookup g'.branches name = some v.id) ∧
    (∀ (g : DocGraph) (s t r : String) (g' : DocGraph) (m : VNode)
       (cf : List Conflict),
       mergeBranches g s t r = some (g', m, cf) →
       getCurrentBranchName g' = getCurrentBranchName g) ∧
    (∀ (g : DocGraph) (vid : Nat) (g' : DocGraph) (v : VNode),
       restore g vid = some (g', v) →
       getCurrentBranchName g' = getCurrentBranchName g ∧
       ∃ name tip, getCurrentBranchName g = some name ∧
         alookup g.branches name = some tip ∧
         v.parent = some tip ∧
         alookup g'.branches name = some v.id) := by
  refine ⟨fun c => rfl, fun g n => rfl, ?_, ?_, ?_, ?_⟩
  · intro g n sv g' hne hcb
    cases h1 : alookup g.branches n with
    | some x => simp [createBranch, h1] at hcb
    | none =>
      cases h2 : alookup g.versions sv with
      | none => simp [createBranch, h1, h2] at hcb
      | some y =>
        simp only [createBranch, h1, h2, Option.isSome_none,
          Bool.false_eq_true, if_false, Option.isNone_some,
          Option.some.injEq] at hcb
        subst hcb
        simp only [getCurrentBranchName]
        rw [aset_head_key g.branches n sv hne]
  · intro g content g' v hcv
    cases hname : getCurrentBranchName g with
    | none => simp [createVersion, hname] at hcv
    | some name =>
      cases htip : alookup g.branches name with
      | none => simp [createVersion, hname, htip] at hcv
      | some tip =>
        cases hpv : alookup g.versions tip with
        | none => simp [createVersion, hname, htip, hpv] at hcv
        | some pv =>
          simp only [createVersion, hname, htip, hpv, Option.some.injEq,
            Prod.mk.injEq] at hcv
          obtain ⟨hg', hv⟩ := hcv
          subst hg' hv
          have hne := alookup_ne_nil g.branches name tip htip
          constructor
          · simp only [getCurrentBranchName]
            rw [aset_head_key g.branches name _ hne]
            exact hname
          · exact ⟨name, tip, pv, rfl, htip, hpv, rfl,
              by rw [alookup_aset, if_pos rfl]⟩
  · intro g s t r g' m cf hmb
    cases h1 : alookup g.branches s with
    | none => simp [mergeBranches, h1] at hmb
    | some sTip =>
      cases h2 : alookup g.branches t with
      | none => simp [mergeBranches, h1, h2] at hmb
      | some tTip =>
        cases h3 : alookup g.versions sTip with
        | none => simp [mergeBranches, h1, h2, h3] at hmb
        | some sv =>
          cases h4 : alookup g.versions tTip with
          | none => simp [mergeBranches, h1, h2, h3, h4] at hmb
          | some tv =>
            cases h5 : findCommonAncestor g.versions sv tv with
            | none => simp [mergeBranches, h1, h2, h3, h4, h5] at hmb
            | some anc =>
              rw [mergeBranches_eq g s t r sTip tTip sv tv anc h1 h2 h3 h4 h5]
                at hmb
              simp only [Option.some.injEq, Prod.mk.injEq] at hmb
              obtain ⟨hg', -, -⟩ := hmb
              subst hg'
              have hne := alookup_ne_nil g.branches t tTip h2
              simp only [getCurrentBranchName]
              rw [aset_head_key g.branches t _ hne]
  · intro g vid g' v hr
    cases h1 : alookup g.versions vid with
    | none => simp [restore, h1] at hr
    | some version =>
      cases hname : getCurrentBranchName g with
      | none => simp [restore, h1, hname] at hr
      | some name =>
        cases htip : alookup g.branches name with
        | none => simp [restore, h1, hname, htip] at hr
        | some tip =>
          simp only [restore, h1, hname, htip, Option.some.injEq,
            Prod.mk.injEq] at hr
          obtain ⟨hg', hv⟩ := hr
          subst hg' hv
          have hne := alookup_ne_nil g.branches name tip htip
          refine ⟨?_, name, tip, rfl, htip, rfl,
            by rw [alookup_aset, if_pos rfl]⟩
          simp only [getCurrentBranchName]
          rw [aset_head_key g.branches name _ hne]
          exact hname

end PolicyEditor
